import Mathlib

/-!
A shallow embedding of the CrossChat relay core (`crosschat.py`): the identity
registry, the cross-platform entities (Channel, User, Attachment,
OriginalMessage, Message), and the propagation engine (`broadcast`, `edit`,
`delete`), together with the readiness gate (`wait_for_platforms`).

Modelling conventions:
* Python strings are `Str := List Char`; string literals appear as `"...".data`.
* Python `dict` is an association list with insertion order preserved:
  `dictGet` is `dict.get`, `dictSet` is `d[k] = v` (update in place when the
  key exists, append otherwise).
* Adapter operations (`send_message`, `edit_message`, `delete_message`) are
  behaviour functions stored in a `Platform` record; they return
  `Except Str α` — `Except.error` models a Python exception raised inside the
  adapter, which the propagation engine does not catch, so an error aborts the
  sweep exactly where the Python exception would.
* Each engine operation additionally returns the list of adapter calls it
  issued (the observable call trace) and the final state of the objects the
  Python code mutates in place.
* `OriginalMessage.platform` stores the owning platform's `name` (the stable
  string key); the Python object reference is used by the core only through
  `.name`.
* `health_check` may answer differently on successive calls (adapters become
  ready over time), so it is a function of the call counter; the unbounded
  `while` polling loop is embedded with explicit fuel, `none` meaning the run
  did not terminate within the fuel.
-/

/-- Python strings as lists of characters. -/
abbrev Str : Type := List Char

/-- Python `dict.get`: the value stored under `key`, if any. -/
def dictGet {β : Type} (d : List (Str × β)) (key : Str) : Option β :=
  match d with
  | [] => none
  | (k, v) :: rest => if k = key then some v else dictGet rest key

/-- Python `d[key] = value`: update in place when the key exists, append at the
end otherwise (insertion order is preserved, as in a Python dict). -/
def dictSet {β : Type} (d : List (Str × β)) (key : Str) (value : β) : List (Str × β) :=
  match d with
  | [] => [(key, value)]
  | (k, v) :: rest => if k = key then (key, value) :: rest else (k, v) :: dictSet rest key value

/-- Embeds `class User`: a display identity. `name` is the derived full-name string
computed in `__init__`. -/
structure User where
  display_name : Str
  username : Str
  name : Str
  profile_picture : Option Str
deriving DecidableEq

/-- Embeds `User.__init__(display_name, username, profile_picture=None)`. -/
def User.init (display_name : Str) (username : Str)
    (profile_picture : Option Str := none) : User :=
  { display_name := display_name
    username := username
    name := display_name ++ "(@".data ++ username ++ ")".data
    profile_picture := profile_picture }

/-- Embeds `User.get_name`: `"{display_name}(@{username})"`. -/
def User.get_name (u : User) : Str :=
  u.display_name ++ "(@".data ++ u.username ++ ")".data

/-- Embeds `class Attachment`: a single file reference. -/
structure Attachment where
  file_url : Str
deriving DecidableEq

/-- Embeds `class Channel`: name, platform-name → native-id map, metadata bag.
The `crosschat` back reference is the ambient registry and is not stored. -/
structure Channel where
  name : Str
  ids : List (Str × Int)
  extra_data : List (Str × Str)
deriving DecidableEq

/-- Embeds `Channel.__init__(crosschat, name)`. -/
def Channel.init (name : Str) : Channel :=
  { name := name, ids := [], extra_data := [] }

/-- Embeds `class OriginalMessage`: the immutable record of one send/receive event.
`platform` stores the owning platform's name (the core reads only `.name`
from the stored object). -/
structure OriginalMessage where
  content : Str
  id : Int
  platform : Str
  user : User
  channel : Channel
  attachments : List Attachment
deriving DecidableEq

/-- Embeds `class Message`: the cross-platform logical identity.
The `crosschat` back reference is the ambient registry and is not stored. -/
structure Message where
  channel : Channel
  user : User
  content : Str
  ids : List (Str × Int)
  originalMessage : OriginalMessage
  reply : Option OriginalMessage
deriving DecidableEq

/-- Embeds `class Platform`: a named capability endpoint.  The adapter operations are
behaviour functions (subclasses override them); `Except.error` models a Python
exception raised inside the adapter.  `health_check` is indexed by the number
of times it has already been called on this platform. -/
structure Platform where
  name : Str
  send_message : Channel → Str → User → Option OriginalMessage → List Attachment → Except Str Int
  edit_message : Channel → Message → Str → Except Str Unit
  delete_message : Channel → Message → Except Str Unit
  health_check : Nat → Bool

/-- The `Union[str, Platform]` argument taken by `get_id` / `set_id` /
`get_channel`: `key = platform if isinstance(platform, str) else platform.name`. -/
inductive PlatformRef where
  | str (s : Str)
  | plat (p : Platform)

/-- The string key extracted from a `Union[str, Platform]` argument. -/
def PlatformRef.key : PlatformRef → Str
  | .str s => s
  | .plat p => p.name

/-- Embeds `Channel.get_id(platform)`. -/
def Channel.get_id (c : Channel) (platform : PlatformRef) : Option Int :=
  dictGet c.ids platform.key

/-- Embeds `Channel.set_id(platform, id)`. -/
def Channel.set_id (c : Channel) (platform : PlatformRef) (id : Int) : Channel :=
  { c with ids := dictSet c.ids platform.key id }

/-- Embeds `Message.get_id(platform)`. -/
def Message.get_id (m : Message) (platform : PlatformRef) : Option Int :=
  dictGet m.ids platform.key

/-- Embeds `Message.set_id(platform, id)`. -/
def Message.set_id (m : Message) (platform : PlatformRef) (id : Int) : Message :=
  { m with ids := dictSet m.ids platform.key id }

/-- Embeds `class CrossChat`: the identity registry (channels, users, platforms,
messages).  The event loop and thread are the concurrency bridge and carry no
registry state. -/
structure CrossChat where
  channels : List Channel
  users : List User
  platforms : List (Str × Platform)
  messages : List Message

/-- Embeds `CrossChat.__init__`. -/
def CrossChat.init : CrossChat :=
  { channels := [], users := [], platforms := [], messages := [] }

/-- Embeds `CrossChat.add_platform(name, platform)`. -/
def CrossChat.add_platform (cc : CrossChat) (name : Str) (platform : Platform) : CrossChat :=
  { cc with platforms := dictSet cc.platforms name platform }

/-- Embeds `CrossChat.get_platform(name)`. -/
def CrossChat.get_platform (cc : CrossChat) (name : Str) : Option Platform :=
  dictGet cc.platforms name

/-- Embeds `CrossChat.get_platforms_str()`: the platform names, insertion order. -/
def CrossChat.get_platforms_str (cc : CrossChat) : List Str :=
  cc.platforms.map Prod.fst

/-- Embeds `CrossChat.add_channel(channel)`. -/
def CrossChat.add_channel (cc : CrossChat) (channel : Channel) : CrossChat :=
  { cc with channels := cc.channels ++ [channel] }

/-- Embeds `CrossChat.add_user(user)`. -/
def CrossChat.add_user (cc : CrossChat) (user : User) : CrossChat :=
  { cc with users := cc.users ++ [user] }

/-- Embeds `CrossChat.add_message(message)`. -/
def CrossChat.add_message (cc : CrossChat) (message : Message) : CrossChat :=
  { cc with messages := cc.messages ++ [message] }

/-- Embeds `CrossChat.get_channel(id, platform)`: linear scan over `self.channels`,
returning the first channel whose id under the extracted key equals `id`
(`channel.get_id(key) == id`; a channel with no id under the key yields
`None == id`, i.e. no match). -/
def CrossChat.get_channel (cc : CrossChat) (id : Int) (platform : PlatformRef) : Option Channel :=
  let key := platform.key
  cc.channels.find? (fun channel => decide (channel.get_id (PlatformRef.str key) = some id))

/-- Embeds `CrossChat.make_reply_str(reply)`. -/
def CrossChat.make_reply_str (reply : Option OriginalMessage) : Str :=
  match reply with
  | some r =>
    let content : Str :=
      if r.content.length > 100 then
        r.content.take 70 ++ "...".data ++ r.content.rtake 20
      else r.content
    "Replying to ".data ++ r.user.get_name ++ ": '".data ++ content ++ "'\n".data
  | none => "".data

/-- Embeds `Message.__init__(crosschat, originalMessage, reply=None)`: denormalises
channel/user/content and seeds `ids` with the origin platform's id. -/
def Message.init (originalMessage : OriginalMessage)
    (reply : Option OriginalMessage := none) : Message :=
  { channel := originalMessage.channel
    user := originalMessage.user
    content := originalMessage.content
    ids := dictSet [] originalMessage.platform originalMessage.id
    originalMessage := originalMessage
    reply := reply }

/-- One `send_message` invocation issued by `broadcast`, with the arguments it
was given (`attachments` records the value taken by the defaulted parameter). -/
structure SendCall where
  platform : Str
  channel : Channel
  content : Str
  user : User
  reply : Option OriginalMessage
  attachments : List Attachment
deriving DecidableEq

/-- One `edit_message` invocation issued by `edit`.  `message` is the value of
the Message object at call time. -/
structure EditCall where
  platform : Str
  channel : Channel
  message : Message
  newContent : Str
deriving DecidableEq

/-- One `delete_message` invocation issued by `delete`. -/
structure DeleteCall where
  platform : Str
  channel : Channel
  message : Message
deriving DecidableEq

/-- Python `list.remove(x)`: drop the first occurrence of `x`.  `broadcast`
only calls it under an `x in list` guard, so the missing-element error case is
unreachable there (on a list without `x` this returns the list unchanged). -/
def removeFirst (l : List Str) (x : Str) : List Str :=
  match l with
  | [] => []
  | y :: rest => if y = x then rest else y :: removeFirst rest x

/-- The `for platformName in platforms:` loop body of `Message.broadcast`:
look the platform up, skip it if absent, otherwise call `send_message` and on
success record the returned id via `set_id(platform.name, returnedId)`.
An uncaught adapter exception stops the loop and propagates; ids recorded
before it persist (the Python object was mutated in place). -/
def broadcastLoop (cc : CrossChat) (m : Message) :
    List Str → Message × List SendCall × Except Str Unit
  | [] => (m, [], Except.ok ())
  | platformName :: rest =>
    match cc.get_platform platformName with
    | none => broadcastLoop cc m rest
    | some platform =>
      let call : SendCall :=
        { platform := platform.name, channel := m.channel, content := m.content
          user := m.user, reply := m.reply, attachments := [] }
      match platform.send_message m.channel m.content m.user m.reply [] with
      | Except.error e => (m, [call], Except.error e)
      | Except.ok returnedId =>
        let m' := m.set_id (PlatformRef.str platform.name) returnedId
        let out := broadcastLoop cc m' rest
        (out.1, call :: out.2.1, out.2.2)

/-- Embeds `Message.broadcast()`: all registered platform names minus the origin
(`platforms.remove(originalPlatformName)` guarded by membership), then the send
loop.  Returns the final message state, the call trace, and the caller-visible
outcome (`Except.ok ()` is Python's `None` return). -/
def Message.broadcast (cc : CrossChat) (m : Message) :
    Message × List SendCall × Except Str Unit :=
  let originalPlatformName := m.originalMessage.platform
  let platforms := cc.get_platforms_str
  let platforms :=
    if originalPlatformName ∈ platforms then removeFirst platforms originalPlatformName
    else platforms
  broadcastLoop cc m platforms

/-- The `for platform in platforms:` loop of `Message.edit`: call
`edit_message(self.channel, self, newContent)` on each platform value; an
uncaught adapter exception stops the loop and propagates. -/
def editLoop (m : Message) (newContent : Str) :
    List Platform → List EditCall × Except Str Unit
  | [] => ([], Except.ok ())
  | platform :: rest =>
    let call : EditCall :=
      { platform := platform.name, channel := m.channel, message := m
        newContent := newContent }
    match platform.edit_message m.channel m newContent with
    | Except.error e => ([call], Except.error e)
    | Except.ok _ =>
      let out := editLoop m newContent rest
      (call :: out.1, out.2)

/-- Embeds `Message.edit(newContent)`: call `edit_message` on every registered
platform value (`self.crosschat.platforms.values()`), then
`self.content = newContent`.  The content assignment is reached only when no
call raised. -/
def Message.edit (cc : CrossChat) (m : Message) (newContent : Str) :
    Message × List EditCall × Except Str Unit :=
  let platforms := cc.platforms.map Prod.snd
  let out := editLoop m newContent platforms
  match out.2 with
  | Except.ok _ => ({ m with content := newContent }, out.1, Except.ok ())
  | Except.error e => (m, out.1, Except.error e)

/-- The `for platform in platforms:` loop of `Message.delete`. -/
def deleteLoop (m : Message) :
    List Platform → List DeleteCall × Except Str Unit
  | [] => ([], Except.ok ())
  | platform :: rest =>
    let call : DeleteCall :=
      { platform := platform.name, channel := m.channel, message := m }
    match platform.delete_message m.channel m with
    | Except.error e => ([call], Except.error e)
    | Except.ok _ =>
      let out := deleteLoop m rest
      (call :: out.1, out.2)

/-- Embeds `Message.delete()`: call `delete_message(self.channel, self)` on every
registered platform value.  The source mutates neither the registry nor the
message; the embedding returns both unchanged so the frame property is a
statement about this definition. -/
def Message.delete (cc : CrossChat) (m : Message) :
    CrossChat × Message × List DeleteCall × Except Str Unit :=
  let platforms := cc.platforms.map Prod.snd
  let out := deleteLoop m platforms
  (cc, m, out.1, out.2)

/-- The `while not platform.health_check(): sleep(1)` loop of
`CrossChat.wait_for_platforms`, for one platform: poll until the first `true`,
recording each call's result as an event `(platform.name, result)`.  `k` is
the call counter, `fuel` bounds the unbounded Python loop; `none` means the
loop did not finish within the fuel. -/
def pollPlatform (platform : Platform) : Nat → Nat → Option (List (Str × Bool))
  | 0, _ => none
  | fuel + 1, k =>
    if platform.health_check k then some [(platform.name, true)]
    else
      match pollPlatform platform fuel (k + 1) with
      | none => none
      | some events => some ((platform.name, false) :: events)

/-- The outer `for platform in self.platforms.values():` loop of
`wait_for_platforms`: platforms are polled one after the other, each to
completion, in registration order. -/
def waitLoop (fuel : Nat) : List Platform → Option (List (Str × Bool))
  | [] => some []
  | platform :: rest =>
    match pollPlatform platform fuel 0 with
    | none => none
    | some events =>
      match waitLoop fuel rest with
      | none => none
      | some trace => some (events ++ trace)

/-- Embeds `CrossChat.wait_for_platforms()`: the full health-check call trace of a
terminating run (`none` when some platform never reports healthy within
`fuel`). -/
def CrossChat.wait_for_platforms (fuel : Nat) (cc : CrossChat) :
    Option (List (Str × Bool)) :=
  waitLoop fuel (cc.platforms.map Prod.snd)

/-- The reply preamble as the specification words it: when the replied-to
content is longer than 100 characters, the rendered content is its first 70
characters, then `"..."`, then its last 20 characters (here: the reverse of
the first 20 characters of the reversed content); content of length at most
100 is rendered unmodified; with no reply the preamble is empty.  This is the
spec-side definition for the refinement comparison with
`CrossChat.make_reply_str`. -/
def replyPreambleSpec (reply : Option OriginalMessage) : Str :=
  match reply with
  | none => []
  | some r =>
    let truncated : Str :=
      if r.content.length > 100 then
        r.content.take 70 ++ "...".data ++ (r.content.reverse.take 20).reverse
      else r.content
    "Replying to ".data ++ r.user.get_name ++ ": '".data ++ truncated ++ "'\n".data

/-- A channel that carries a native id under the name `"ghost"`, which is not
a registered platform name of `ghostRegistry`. -/
def ghostChannel : Channel :=
  { name := "general".data, ids := [("ghost".data, 5)], extra_data := [] }

/-- A registry with no platforms at all, holding `ghostChannel`. -/
def ghostRegistry : CrossChat :=
  { channels := [ghostChannel], users := [], platforms := [], messages := [] }

/-- A channel as registered in the round-trip witness. -/
def rtChannel : Channel := Channel.init "general".data

/-- A registry whose single channel is `rtChannel` with id `42` assigned for
platform name `"alpha"`. -/
def rtRegistry : CrossChat :=
  { channels := [rtChannel.set_id (PlatformRef.str "alpha".data) 42]
    users := [], platforms := [], messages := [] }

/-! ### Concrete demonstration values (adapters in the style of `main()`) -/

/-- A demonstration user. -/
def alice : User := User.init "Alice".data "alice123".data

/-- A demonstration channel mirrored on three platforms. -/
def demoChannel : Channel :=
  { name := "general".data
    ids := [("alpha".data, 100), ("beta".data, 200), ("gamma".data, 300)]
    extra_data := [] }

/-- A platform whose adapter operations all succeed; `send_message` returns
native id `111`. -/
def alphaPlatform : Platform :=
  { name := "alpha".data
    send_message := fun _ _ _ _ _ => Except.ok 111
    edit_message := fun _ _ _ => Except.ok ()
    delete_message := fun _ _ => Except.ok ()
    health_check := fun _ => true }

/-- A platform whose adapter operations all succeed; `send_message` returns
native id `222`. -/
def betaPlatform : Platform :=
  { name := "beta".data
    send_message := fun _ _ _ _ _ => Except.ok 222
    edit_message := fun _ _ _ => Except.ok ()
    delete_message := fun _ _ => Except.ok ()
    health_check := fun _ => true }

/-- A platform whose adapter operations all succeed; `send_message` returns
native id `333`. -/
def gammaPlatform : Platform :=
  { name := "gamma".data
    send_message := fun _ _ _ _ _ => Except.ok 333
    edit_message := fun _ _ _ => Except.ok ()
    delete_message := fun _ _ => Except.ok ()
    health_check := fun _ => true }

/-- A platform whose `send_message` raises (models an adapter failure). -/
def betaFailPlatform : Platform :=
  { name := "beta".data
    send_message := fun _ _ _ _ _ => Except.error "boom".data
    edit_message := fun _ _ _ => Except.ok ()
    delete_message := fun _ _ => Except.ok ()
    health_check := fun _ => true }

/-- A registry with three healthy platforms, registration order
`alpha, beta, gamma`. -/
def demoRegistry : CrossChat :=
  { channels := [demoChannel]
    users := [alice]
    platforms := [("alpha".data, alphaPlatform), ("beta".data, betaPlatform),
      ("gamma".data, gammaPlatform)]
    messages := [] }

/-- A registry with only `alpha` and `beta` registered. -/
def smallRegistry : CrossChat :=
  { channels := [demoChannel]
    users := [alice]
    platforms := [("alpha".data, alphaPlatform), ("beta".data, betaPlatform)]
    messages := [] }

/-- A registry in which `beta`'s `send_message` raises while `alpha` and
`gamma` work. -/
def failRegistry : CrossChat :=
  { channels := [demoChannel]
    users := [alice]
    platforms := [("alpha".data, alphaPlatform), ("beta".data, betaFailPlatform),
      ("gamma".data, gammaPlatform)]
    messages := [] }

/-- An inbound event on platform `alpha` (native id `9`) carrying one
attachment. -/
def demoOriginal : OriginalMessage :=
  { content := "Hello".data
    id := 9
    platform := "alpha".data
    user := alice
    channel := demoChannel
    attachments := [Attachment.mk "http://example/file.png".data] }

/-- The Message wrapping `demoOriginal`, as built at the inbound boundary. -/
def demoMessage : Message := Message.init demoOriginal none

/-- A platform that reports healthy only from its third `health_check` call
on. -/
def slowPlatform : Platform :=
  { name := "alpha".data
    send_message := fun _ _ _ _ _ => Except.ok 111
    edit_message := fun _ _ _ => Except.ok ()
    delete_message := fun _ _ => Except.ok ()
    health_check := fun k => decide (2 ≤ k) }

/-- A platform that is healthy from the first call. -/
def fastPlatform : Platform :=
  { name := "beta".data
    send_message := fun _ _ _ _ _ => Except.ok 222
    edit_message := fun _ _ _ => Except.ok ()
    delete_message := fun _ _ => Except.ok ()
    health_check := fun _ => true }

/-- A registry with `slowPlatform` registered before `fastPlatform`. -/
def gateRegistry : CrossChat :=
  { channels := [], users := []
    platforms := [("alpha".data, slowPlatform), ("beta".data, fastPlatform)]
    messages := [] }

/-! ### Association-list (Python dict) lemmas -/

theorem dictGet_dictSet_self {β : Type} (d : List (Str × β)) (k : Str) (v : β) :
    dictGet (dictSet d k v) k = some v := by
  induction d with
  | nil => simp [dictSet, dictGet]
  | cons hd tl ih =>
    obtain ⟨k', v'⟩ := hd
    by_cases h : k' = k
    · subst h; simp [dictSet, dictGet]
    · simp [dictSet, dictGet, h, ih]

theorem dictGet_dictSet_ne {β : Type} (d : List (Str × β)) (k k' : Str) (v : β)
    (h : k ≠ k') : dictGet (dictSet d k v) k' = dictGet d k' := by
  induction d with
  | nil => simp [dictSet, dictGet, h]
  | cons hd tl ih =>
    obtain ⟨k₀, v₀⟩ := hd
    by_cases h₀ : k₀ = k
    · subst h₀; simp [dictSet, dictGet, h]
    · simp [dictSet, dictGet, h₀, ih]

theorem dictSet_fresh {β : Type} (d : List (Str × β)) (k : Str) (v : β)
    (h : k ∉ d.map Prod.fst) : dictSet d k v = d ++ [(k, v)] := by
  induction d with
  | nil => simp [dictSet]
  | cons hd tl ih =>
    obtain ⟨k₀, v₀⟩ := hd
    simp only [List.map_cons, List.mem_cons, not_or] at h
    have hk : k₀ ≠ k := fun e => h.1 e.symm
    simp [dictSet, hk, ih h.2]

theorem dictGet_append_right {β : Type} (d d' : List (Str × β)) (k : Str)
    (h : k ∉ d.map Prod.fst) : dictGet (d ++ d') k = dictGet d' k := by
  induction d with
  | nil => simp
  | cons hd tl ih =>
    obtain ⟨k₀, v₀⟩ := hd
    simp only [List.map_cons, List.mem_cons, not_or] at h
    have hk : k₀ ≠ k := fun e => h.1 e.symm
    simp only [List.cons_append, dictGet, hk, if_false]
    exact ih h.2

theorem dictGet_append_left {β : Type} {d d' : List (Str × β)} {k : Str} {v : β}
    (h : dictGet d k = some v) : dictGet (d ++ d') k = some v := by
  induction d with
  | nil => simp [dictGet] at h
  | cons hd tl ih =>
    obtain ⟨k₀, v₀⟩ := hd
    by_cases hk : k₀ = k
    · subst hk; simp_all [dictGet]
    · simp only [dictGet, hk, if_false] at h
      simp only [List.cons_append, dictGet, hk, if_false]
      exact ih h

theorem dictGet_mem {β : Type} {d : List (Str × β)} {k : Str} {v : β}
    (h : dictGet d k = some v) : (k, v) ∈ d := by
  induction d with
  | nil => simp [dictGet] at h
  | cons hd tl ih =>
    obtain ⟨k₀, v₀⟩ := hd
    by_cases hk : k₀ = k
    · subst hk
      have hv : v₀ = v := by simpa [dictGet] using h
      subst hv
      exact List.mem_cons_self _ _
    · simp only [dictGet, hk, if_false] at h
      exact List.mem_cons_of_mem _ (ih h)

theorem dictGet_of_mem_keys {β : Type} {d : List (Str × β)} {k : Str}
    (h : k ∈ d.map Prod.fst) : ∃ v, dictGet d k = some v := by
  induction d with
  | nil => simp at h
  | cons hd tl ih =>
    obtain ⟨k₀, v₀⟩ := hd
    by_cases hk : k₀ = k
    · subst hk; exact ⟨v₀, by simp [dictGet]⟩
    · simp only [List.map_cons, List.mem_cons] at h
      rcases h with h | h
      · exact absurd h.symm hk
      · obtain ⟨v, hv⟩ := ih h
        exact ⟨v, by simp [dictGet, hk, hv]⟩

/-! ### `removeFirst` (Python `list.remove`) lemmas -/

theorem mem_of_mem_removeFirst {l : List Str} {x n : Str}
    (h : n ∈ removeFirst l x) : n ∈ l := by
  induction l with
  | nil => simp [removeFirst] at h
  | cons y rest ih =>
    by_cases hy : y = x
    · simp only [removeFirst, if_pos hy] at h
      exact List.mem_cons_of_mem _ h
    · simp only [removeFirst, if_neg hy, List.mem_cons] at h
      rcases h with h | h
      · exact h ▸ List.mem_cons_self _ _
      · exact List.mem_cons_of_mem _ (ih h)

theorem nodup_removeFirst {l : List Str} (x : Str) (h : l.Nodup) :
    (removeFirst l x).Nodup := by
  induction l with
  | nil => simp [removeFirst]
  | cons y rest ih =>
    rcases List.nodup_cons.mp h with ⟨hy, hrest⟩
    by_cases hyx : y = x
    · simpa [removeFirst, if_pos hyx] using hrest
    · simp only [removeFirst, if_neg hyx]
      exact List.nodup_cons.mpr
        ⟨fun hmem => hy (mem_of_mem_removeFirst hmem), ih hrest⟩

theorem not_mem_removeFirst {l : List Str} {x : Str} (h : l.Nodup) :
    x ∉ removeFirst l x := by
  induction l with
  | nil => simp [removeFirst]
  | cons y rest ih =>
    rcases List.nodup_cons.mp h with ⟨hy, hrest⟩
    by_cases hyx : y = x
    · subst hyx; simpa [removeFirst] using hy
    · simp only [removeFirst, if_neg hyx, List.mem_cons]
      rintro (h | h)
      · exact hyx h.symm
      · exact ih hrest h

/-- Helper: `find?` over a list whose elements before `a` all refuse the predicate. -/
theorem find?_prefix_neg {α : Type} (p : α → Bool) :
    ∀ (pre : List α) (a : α) (post : List α),
      (∀ y ∈ pre, p y = false) → p a = true →
      List.find? p (pre ++ a :: post) = some a := by
  intro pre
  induction pre with
  | nil => intro a post _ ha; simp [List.find?, ha]
  | cons y rest ih =>
    intro a post hpre ha
    have hy : p y = false := hpre y (List.mem_cons_self _ _)
    simp only [List.cons_append, List.find?, hy]
    exact ih a post (fun z hz => hpre z (List.mem_cons_of_mem _ hz)) ha

/-! ### Claim C7: the reply preamble -/

/-- C7: for every reply message the preamble produced by `make_reply_str` is
`"Replying to {replied_user_display}: '{truncated_content}'\n"`, where content
longer than 100 characters is truncated to its first 70 characters, `"..."`,
and its last 20 characters, content of length at most 100 is unmodified, and
with no reply the preamble is the empty string. -/
theorem make_reply_str_spec (reply : Option OriginalMessage) :
    CrossChat.make_reply_str reply = replyPreambleSpec reply := by
  cases reply with
  | none => rfl
  | some r =>
    simp only [CrossChat.make_reply_str, replyPreambleSpec,
      ← List.rtake_eq_reverse_take_reverse r.content 20]

/-! ### Claims C5 and C6: channel id lookup -/

/-- C5 counterexample: `"ghost"` is not a registered platform name, yet
`get_channel(5, "ghost")` returns `ghostChannel` (which stores native id `5`
under `"ghost"`) instead of the `none` the claim requires — `get_channel`
never checks that the platform name is registered. -/
theorem get_channel_unregistered_counterexample :
    "ghost".data ∉ ghostRegistry.get_platforms_str
    ∧ ghostRegistry.get_channel 5 (PlatformRef.str "ghost".data) = some ghostChannel
    ∧ ghostRegistry.get_channel 5 (PlatformRef.str "ghost".data) ≠ none := by
  refine ⟨?_, rfl, ?_⟩
  · simp [ghostRegistry, CrossChat.get_platforms_str]
  · decide

/-- C5 amended: `get_channel` performs no registration check on the platform
name; for an unregistered name it returns `none` exactly when no registered
channel stores that native id under that name. -/
theorem get_channel_unregistered_none_iff (cc : CrossChat) (x : Int) (name : Str)
    (hunreg : name ∉ cc.get_platforms_str) :
    cc.get_channel x (PlatformRef.str name) = none ↔
      ∀ c ∈ cc.channels, c.get_id (PlatformRef.str name) ≠ some x := by
  unfold CrossChat.get_channel
  rw [List.find?_eq_none]
  constructor
  · intro h c hc
    have := h c hc
    simpa using this
  · intro h c hc
    simpa using h c hc

/-- Witness for `get_channel_unregistered_none_iff` at `ghostRegistry`,
id `7`, name `"ghost"`. -/
theorem get_channel_unregistered_none_iff_witness :
    ghostRegistry.get_channel 7 (PlatformRef.str "ghost".data) = none ↔
      ∀ c ∈ ghostRegistry.channels, c.get_id (PlatformRef.str "ghost".data) ≠ some 7 :=
  get_channel_unregistered_none_iff ghostRegistry 7 ("ghost".data)
    (by simp [ghostRegistry, CrossChat.get_platforms_str])

/-- C6: round-trip of channel id assignment and lookup.  First conjunct: if
the registered channels are `pre ++ [c.set_id p x] ++ post` and no other
registered channel has id `x` for `p` (the updated channel is the unique
match), then `get_channel(x, p)` returns the updated channel.  Second
conjunct: if no registered channel has id `x` for `p` (the id was never
assigned), `get_channel(x, p)` returns `none`. -/
theorem get_channel_round_trip (cc : CrossChat) (p : PlatformRef) (x : Int) :
    (∀ (c : Channel) (pre post : List Channel),
        cc.channels = pre ++ (c.set_id p x) :: post →
        (∀ c' ∈ pre ++ post, c'.get_id p ≠ some x) →
        cc.get_channel x p = some (c.set_id p x))
    ∧ ((∀ c' ∈ cc.channels, c'.get_id p ≠ some x) →
        cc.get_channel x p = none) := by
  have hkey : ∀ c' : Channel, c'.get_id (PlatformRef.str p.key) = c'.get_id p := by
    intro c'; rfl
  constructor
  · intro c pre post hchannels huniq
    unfold CrossChat.get_channel
    rw [hchannels]
    refine find?_prefix_neg _ pre _ post ?_ ?_
    · intro y hy
      have : y.get_id p ≠ some x :=
        huniq y (List.mem_append.mpr (Or.inl hy))
      simpa [hkey] using this
    · have : (c.set_id p x).get_id p = some x := by
        unfold Channel.set_id Channel.get_id
        exact dictGet_dictSet_self _ _ _
      simpa [hkey] using this
  · intro h
    unfold CrossChat.get_channel
    rw [List.find?_eq_none]
    intro c hc
    simpa [hkey] using h c hc

/-- Witness for `get_channel_round_trip`: looking up the assigned id `42`
returns the updated channel; looking up the never-assigned id `99` returns
`none`. -/
theorem get_channel_round_trip_witness :
    rtRegistry.get_channel 42 (PlatformRef.str "alpha".data)
      = some (rtChannel.set_id (PlatformRef.str "alpha".data) 42)
    ∧ rtRegistry.get_channel 99 (PlatformRef.str "alpha".data) = none := by
  constructor
  · exact (get_channel_round_trip rtRegistry (PlatformRef.str "alpha".data) 42).1
      rtChannel [] [] rfl (by simp)
  · exact (get_channel_round_trip rtRegistry (PlatformRef.str "alpha".data) 99).2
      (by decide)

/-! ### Claim C10: broadcast never forwards attachments -/

/-- Every `send_message` call issued by the broadcast loop passes the default
empty `attachments` argument (the call site names only channel, content, user
and reply). -/
theorem broadcastLoop_attachments (cc : CrossChat) :
    ∀ (names : List Str) (m : Message) (call : SendCall),
      call ∈ (broadcastLoop cc m names).2.1 → call.attachments = [] := by
  intro names
  induction names with
  | nil => intro m call h; simp [broadcastLoop] at h
  | cons n rest ih =>
    intro m call h
    cases hp : cc.get_platform n with
    | none =>
      simp only [broadcastLoop, hp] at h
      exact ih m call h
    | some platform =>
      cases hs : platform.send_message m.channel m.content m.user m.reply [] with
      | error e =>
        simp only [broadcastLoop, hp, hs, List.mem_singleton] at h
        subst h; rfl
      | ok returnedId =>
        simp only [broadcastLoop, hp, hs, List.mem_cons] at h
        rcases h with h | h
        · subst h; rfl
        · exact ih _ call h

/-- C10: even when the originating `OriginalMessage` carries attachments,
every `send_message` call issued by `broadcast` passes the default empty
`attachments` value — received attachments are never relayed by `broadcast`. -/
theorem broadcast_drops_attachments (cc : CrossChat) (m : Message)
    (hatt : m.originalMessage.attachments ≠ []) :
    ∀ call ∈ (Message.broadcast cc m).2.1, call.attachments = [] := by
  intro call hc
  unfold Message.broadcast at hc
  exact broadcastLoop_attachments cc _ m call hc

/-- Witness for `broadcast_drops_attachments`: `demoMessage` originates with
one attachment, and both calls of its broadcast pass no attachments. -/
theorem broadcast_drops_attachments_witness :
    demoMessage.originalMessage.attachments ≠ []
    ∧ ∀ call ∈ (Message.broadcast demoRegistry demoMessage).2.1, call.attachments = [] :=
  ⟨by decide, broadcast_drops_attachments demoRegistry demoMessage (by decide)⟩

/-! ### Claim C3: what the caller of broadcast/edit/delete receives -/

/-- C3 counterexample: the caller-visible outcome of `broadcast` (the Python
return value: `None` on success, a propagated exception otherwise) carries no
per-platform information.  Two broadcasts with different per-platform delivery
patterns — two successful sends (`beta`, `gamma`) versus one (`beta`) — both
hand the caller the identical `Except.ok ()`, so no aggregate per-platform
success/failure description reaches the caller. -/
theorem sweep_result_counterexample :
    (Message.broadcast demoRegistry demoMessage).2.1.map SendCall.platform
      = ["beta".data, "gamma".data]
    ∧ (Message.broadcast smallRegistry demoMessage).2.1.map SendCall.platform
      = ["beta".data]
    ∧ (Message.broadcast demoRegistry demoMessage).2.2 = Except.ok ()
    ∧ (Message.broadcast demoRegistry demoMessage).2.2
      = (Message.broadcast smallRegistry demoMessage).2.2 := by
  exact ⟨by decide, by decide, rfl, rfl⟩

/-- C3 amended: the caller of `broadcast`, `edit` and `delete` receives no
aggregate result — each operation hands back either Python's `None` return
(`Except.ok ()`, one fixed value carrying no per-platform information) or the
single first adapter exception, never a per-platform success/failure list. -/
theorem sweep_result_no_aggregate (cc : CrossChat) (m : Message) (newContent : Str) :
    ((Message.broadcast cc m).2.2 = Except.ok ()
      ∨ ∃ e, (Message.broadcast cc m).2.2 = Except.error e)
    ∧ ((Message.edit cc m newContent).2.2 = Except.ok ()
      ∨ ∃ e, (Message.edit cc m newContent).2.2 = Except.error e)
    ∧ ((Message.delete cc m).2.2.2 = Except.ok ()
      ∨ ∃ e, (Message.delete cc m).2.2.2 = Except.error e) := by
  refine ⟨?_, ?_, ?_⟩
  · cases h : (Message.broadcast cc m).2.2 with
    | ok u => exact Or.inl rfl
    | error e => exact Or.inr ⟨e, rfl⟩
  · cases h : (Message.edit cc m newContent).2.2 with
    | ok u => exact Or.inl rfl
    | error e => exact Or.inr ⟨e, rfl⟩
  · cases h : (Message.delete cc m).2.2.2 with
    | ok u => exact Or.inl rfl
    | error e => exact Or.inr ⟨e, rfl⟩

/-! ### Claim C4: adapter failure during a sweep -/

/-- C4 counterexample: in `failRegistry` the platforms are `alpha` (origin),
`beta` (whose `send_message` raises) and `gamma` (working).  Broadcasting
aborts at `beta`: the exception propagates to the caller and `gamma` — a
registered, remaining, working platform — is never invoked, contradicting the
claim that a failure on one platform never prevents delivery on the others. -/
theorem broadcast_abort_counterexample :
    "gamma".data ∈ failRegistry.get_platforms_str
    ∧ (Message.broadcast failRegistry demoMessage).2.2 = Except.error "boom".data
    ∧ (Message.broadcast failRegistry demoMessage).2.1.map SendCall.platform
      = ["beta".data]
    ∧ "gamma".data ∉ (Message.broadcast failRegistry demoMessage).2.1.map SendCall.platform := by
  exact ⟨by decide, rfl, by decide, by decide⟩

/-! ### Claim C2: edit reaches every platform, content set once, afterwards -/

/-- When the edit loop completes without an adapter exception it has issued
exactly one `edit_message` call per platform value, in order, each passing the
(unchanged) message and channel and the new content. -/
theorem editLoop_ok (m : Message) (newContent : Str) :
    ∀ ps : List Platform, (editLoop m newContent ps).2 = Except.ok () →
      (editLoop m newContent ps).1.map EditCall.platform = ps.map Platform.name
      ∧ ∀ c ∈ (editLoop m newContent ps).1,
          c.message = m ∧ c.channel = m.channel ∧ c.newContent = newContent := by
  intro ps
  induction ps with
  | nil =>
    intro _
    exact ⟨rfl, by intro c hc; simp [editLoop] at hc⟩
  | cons p rest ih =>
    intro hok
    cases he : p.edit_message m.channel m newContent with
    | error e => simp [editLoop, he] at hok
    | ok u =>
      have hok' : (editLoop m newContent rest).2 = Except.ok () := by
        simpa [editLoop, he] using hok
      obtain ⟨h1, h2⟩ := ih hok'
      refine ⟨?_, ?_⟩
      · simp [editLoop, he, h1]
      · intro c hc
        simp only [editLoop, he, List.mem_cons] at hc
        rcases hc with rfl | hc
        · exact ⟨rfl, rfl, rfl⟩
        · exact h2 c hc

/-- C2: when `edit(M, newContent)` completes without an adapter exception it
has invoked `edit_message` exactly once on every registered platform
(including the origin, in registration order), it sets `M.content` to
`newContent` exactly once while leaving `M.ids` and every other attribute
unchanged, and the content update happens only after all calls were issued:
every call received the message still carrying the old content. -/
theorem edit_updates_all_platforms (cc : CrossChat) (m : Message) (newContent : Str)
    (hok : (Message.edit cc m newContent).2.2 = Except.ok ()) :
    (Message.edit cc m newContent).2.1.map EditCall.platform
      = (cc.platforms.map Prod.snd).map Platform.name
    ∧ (Message.edit cc m newContent).1.content = newContent
    ∧ (Message.edit cc m newContent).1.ids = m.ids
    ∧ (Message.edit cc m newContent).1.channel = m.channel
    ∧ (Message.edit cc m newContent).1.user = m.user
    ∧ (Message.edit cc m newContent).1.originalMessage = m.originalMessage
    ∧ (Message.edit cc m newContent).1.reply = m.reply
    ∧ ∀ c ∈ (Message.edit cc m newContent).2.1,
        c.message = m ∧ c.message.content = m.content := by
  cases hr : (editLoop m newContent (cc.platforms.map Prod.snd)).2 with
  | error e => simp [Message.edit, hr] at hok
  | ok u =>
    cases u
    obtain ⟨h1, h2⟩ := editLoop_ok m newContent (cc.platforms.map Prod.snd) hr
    refine ⟨?_, ?_, ?_, ?_, ?_, ?_, ?_, ?_⟩
    · simpa [Message.edit, hr] using h1
    · simp [Message.edit, hr]
    · simp [Message.edit, hr]
    · simp [Message.edit, hr]
    · simp [Message.edit, hr]
    · simp [Message.edit, hr]
    · simp [Message.edit, hr]
    · intro c hc
      simp only [Message.edit, hr] at hc
      obtain ⟨hm, _, _⟩ := h2 c hc
      exact ⟨hm, by rw [hm]⟩

/-- Witness for `edit_updates_all_platforms`: editing `demoMessage` in
`demoRegistry` to `"EDITED"`. -/
theorem edit_updates_all_platforms_witness :
    (Message.edit demoRegistry demoMessage "EDITED".data).2.1.map EditCall.platform
      = (demoRegistry.platforms.map Prod.snd).map Platform.name
    ∧ (Message.edit demoRegistry demoMessage "EDITED".data).1.content = "EDITED".data
    ∧ (Message.edit demoRegistry demoMessage "EDITED".data).1.ids = demoMessage.ids
    ∧ (Message.edit demoRegistry demoMessage "EDITED".data).1.channel = demoMessage.channel
    ∧ (Message.edit demoRegistry demoMessage "EDITED".data).1.user = demoMessage.user
    ∧ (Message.edit demoRegistry demoMessage "EDITED".data).1.originalMessage
      = demoMessage.originalMessage
    ∧ (Message.edit demoRegistry demoMessage "EDITED".data).1.reply = demoMessage.reply
    ∧ ∀ c ∈ (Message.edit demoRegistry demoMessage "EDITED".data).2.1,
        c.message = demoMessage ∧ c.message.content = demoMessage.content :=
  edit_updates_all_platforms demoRegistry demoMessage "EDITED".data rfl

/-! ### Claim C9: delete is a pure sweep, no local state change -/

/-- When the delete loop completes without an adapter exception it has issued
exactly one `delete_message` call per platform value, in order. -/
theorem deleteLoop_ok (m : Message) :
    ∀ ps : List Platform, (deleteLoop m ps).2 = Except.ok () →
      (deleteLoop m ps).1.map DeleteCall.platform = ps.map Platform.name
      ∧ ∀ c ∈ (deleteLoop m ps).1, c.message = m ∧ c.channel = m.channel := by
  intro ps
  induction ps with
  | nil =>
    intro _
    exact ⟨rfl, by intro c hc; simp [deleteLoop] at hc⟩
  | cons p rest ih =>
    intro hok
    cases he : p.delete_message m.channel m with
    | error e => simp [deleteLoop, he] at hok
    | ok u =>
      have hok' : (deleteLoop m rest).2 = Except.ok () := by
        simpa [deleteLoop, he] using hok
      obtain ⟨h1, h2⟩ := ih hok'
      refine ⟨?_, ?_⟩
      · simp [deleteLoop, he, h1]
      · intro c hc
        simp only [deleteLoop, he, List.mem_cons] at hc
        rcases hc with rfl | hc
        · exact ⟨rfl, rfl⟩
        · exact h2 c hc

/-- C9: when `delete(M)` completes without an adapter exception it has invoked
`delete_message` once per registered platform (in registration order) and
changed nothing locally: every attribute of `M` is unchanged, the registry is
unchanged, and in particular `M` is not removed from the registry's message
list. -/
theorem delete_frame (cc : CrossChat) (m : Message)
    (hok : (Message.delete cc m).2.2.2 = Except.ok ()) :
    (Message.delete cc m).2.2.1.map DeleteCall.platform
      = (cc.platforms.map Prod.snd).map Platform.name
    ∧ (Message.delete cc m).1 = cc
    ∧ (Message.delete cc m).2.1 = m
    ∧ (Message.delete cc m).2.1.content = m.content
    ∧ (Message.delete cc m).2.1.ids = m.ids
    ∧ (Message.delete cc m).2.1.channel = m.channel
    ∧ (Message.delete cc m).2.1.user = m.user
    ∧ (Message.delete cc m).2.1.originalMessage = m.originalMessage
    ∧ (Message.delete cc m).2.1.reply = m.reply
    ∧ (Message.delete cc m).1.messages = cc.messages := by
  have hloop : (Message.delete cc m).2.2.2
      = (deleteLoop m (cc.platforms.map Prod.snd)).2 := rfl
  obtain ⟨h1, _⟩ := deleteLoop_ok m (cc.platforms.map Prod.snd) (hloop ▸ hok)
  exact ⟨h1, rfl, rfl, rfl, rfl, rfl, rfl, rfl, rfl, rfl⟩

/-- Witness for `delete_frame`: deleting `demoMessage` in `demoRegistry`. -/
theorem delete_frame_witness :
    (Message.delete demoRegistry demoMessage).2.2.1.map DeleteCall.platform
      = (demoRegistry.platforms.map Prod.snd).map Platform.name
    ∧ (Message.delete demoRegistry demoMessage).1 = demoRegistry
    ∧ (Message.delete demoRegistry demoMessage).2.1 = demoMessage
    ∧ (Message.delete demoRegistry demoMessage).2.1.content = demoMessage.content
    ∧ (Message.delete demoRegistry demoMessage).2.1.ids = demoMessage.ids
    ∧ (Message.delete demoRegistry demoMessage).2.1.channel = demoMessage.channel
    ∧ (Message.delete demoRegistry demoMessage).2.1.user = demoMessage.user
    ∧ (Message.delete demoRegistry demoMessage).2.1.originalMessage
      = demoMessage.originalMessage
    ∧ (Message.delete demoRegistry demoMessage).2.1.reply = demoMessage.reply
    ∧ (Message.delete demoRegistry demoMessage).1.messages = demoRegistry.messages :=
  delete_frame demoRegistry demoMessage rfl

/-! ### Claim C1: broadcast fills the id map -/

theorem dictGet_append_singleton_ne {β : Type} (d : List (Str × β)) {k k' : Str}
    (v : β) (h : k' ≠ k) : dictGet (d ++ [(k, v)]) k' = dictGet d k' := by
  cases hd : dictGet d k' with
  | some w => exact dictGet_append_left hd
  | none =>
    have hk : k' ∉ d.map Prod.fst := by
      intro hmem
      obtain ⟨w, hw⟩ := dictGet_of_mem_keys hmem
      rw [hd] at hw
      exact Option.noConfusion hw
    rw [dictGet_append_right d _ _ hk]
    simp [dictGet, Ne.symm h]

/-- The broadcast loop invariant: when every platform key in `names` is
registered under its own name, `names` has no duplicates and is disjoint from
the keys already in `m.ids`, and the loop completes without an adapter
exception, then the loop called `send_message` exactly once per name in list
order, appended exactly one id entry per name (each the id the platform's
`send_message` returned), left every pre-existing id entry untouched, and
changed no other attribute of the message. -/
theorem broadcastLoop_ok (cc : CrossChat)
    (hnames : ∀ kp ∈ cc.platforms, kp.2.name = kp.1) :
    ∀ (names : List Str) (m : Message),
      names.Nodup →
      (∀ n ∈ names, n ∈ cc.platforms.map Prod.fst) →
      (∀ n ∈ names, n ∉ m.ids.map Prod.fst) →
      (broadcastLoop cc m names).2.2 = Except.ok () →
      (broadcastLoop cc m names).2.1.map SendCall.platform = names
      ∧ (broadcastLoop cc m names).1.ids.map Prod.fst = m.ids.map Prod.fst ++ names
      ∧ (∀ n ∈ names, ∃ p rid, cc.get_platform n = some p
          ∧ p.send_message m.channel m.content m.user m.reply [] = Except.ok rid
          ∧ dictGet (broadcastLoop cc m names).1.ids n = some rid)
      ∧ (∀ k, k ∉ names → dictGet (broadcastLoop cc m names).1.ids k = dictGet m.ids k)
      ∧ (broadcastLoop cc m names).1.channel = m.channel
      ∧ (broadcastLoop cc m names).1.content = m.content
      ∧ (broadcastLoop cc m names).1.user = m.user
      ∧ (broadcastLoop cc m names).1.reply = m.reply
      ∧ (broadcastLoop cc m names).1.originalMessage = m.originalMessage := by
  intro names
  induction names with
  | nil =>
    intro m _ _ _ _
    refine ⟨rfl, by simp [broadcastLoop], ?_, ?_, rfl, rfl, rfl, rfl, rfl⟩
    · intro n hn; simp at hn
    · intro k _; rfl
  | cons n rest ih =>
    intro m hnodup hreg hfresh hok
    have hn_mem : n ∈ cc.platforms.map Prod.fst := hreg n (List.mem_cons_self _ _)
    obtain ⟨p, hp⟩ := dictGet_of_mem_keys hn_mem
    have hp' : cc.get_platform n = some p := hp
    have hpname : p.name = n := hnames (n, p) (dictGet_mem hp)
    have hn_fresh : n ∉ m.ids.map Prod.fst := hfresh n (List.mem_cons_self _ _)
    rcases List.nodup_cons.mp hnodup with ⟨hn_rest, hnodup_rest⟩
    cases hs : p.send_message m.channel m.content m.user m.reply [] with
    | error e =>
      simp [broadcastLoop, hp', hs] at hok
    | ok rid =>
      have hm'ids : (m.set_id (PlatformRef.str p.name) rid).ids = m.ids ++ [(n, rid)] := by
        show dictSet m.ids p.name rid = m.ids ++ [(n, rid)]
        rw [hpname]
        exact dictSet_fresh _ _ _ hn_fresh
      have hfresh' : ∀ k ∈ rest,
          k ∉ (m.set_id (PlatformRef.str p.name) rid).ids.map Prod.fst := by
        intro k hk
        rw [hm'ids]
        simp only [List.map_append, List.mem_append, List.map_cons, List.map_nil,
          List.mem_singleton, not_or]
        refine ⟨hfresh k (List.mem_cons_of_mem _ hk), ?_⟩
        intro hkn
        exact hn_rest (hkn ▸ hk)
      have hok' : (broadcastLoop cc (m.set_id (PlatformRef.str p.name) rid) rest).2.2
          = Except.ok () := by
        simpa [broadcastLoop, hp', hs] using hok
      obtain ⟨ih1, ih2, ih3, ih4, ih5, ih6, ih7, ih8, ih9⟩ :=
        ih (m.set_id (PlatformRef.str p.name) rid) hnodup_rest
          (fun k hk => hreg k (List.mem_cons_of_mem _ hk)) hfresh' hok'
      have hgoal : broadcastLoop cc m (n :: rest)
          = ((broadcastLoop cc (m.set_id (PlatformRef.str p.name) rid) rest).1,
             { platform := p.name, channel := m.channel, content := m.content,
               user := m.user, reply := m.reply, attachments := [] }
               :: (broadcastLoop cc (m.set_id (PlatformRef.str p.name) rid) rest).2.1,
             (broadcastLoop cc (m.set_id (PlatformRef.str p.name) rid) rest).2.2) := by
        simp [broadcastLoop, hp', hs]
      refine ⟨?_, ?_, ?_, ?_, ?_, ?_, ?_, ?_, ?_⟩
      · rw [hgoal]
        simp only [List.map_cons]
        rw [ih1, hpname]
      · rw [hgoal]
        rw [ih2, hm'ids]
        simp
      · intro k hk
        rcases List.mem_cons.mp hk with rfl | hk'
        · refine ⟨p, rid, hp', hs, ?_⟩
          rw [hgoal]
          rw [ih4 k hn_rest, hm'ids]
          rw [dictGet_append_right _ _ _ hn_fresh]
          simp [dictGet]
        · obtain ⟨p', rid', hp'', hs', hget⟩ := ih3 k hk'
          refine ⟨p', rid', hp'', hs', ?_⟩
          rw [hgoal]
          exact hget
      · intro k hk
        have hk_rest : k ∉ rest := fun h => hk (List.mem_cons_of_mem _ h)
        have hk_ne : k ≠ n := fun h => hk (h ▸ List.mem_cons_self _ _)
        rw [hgoal, ih4 k hk_rest, hm'ids]
        exact dictGet_append_singleton_ne _ _ hk_ne
      · rw [hgoal]; exact ih5
      · rw [hgoal]; exact ih6
      · rw [hgoal]; exact ih7
      · rw [hgoal]; exact ih8
      · rw [hgoal]; exact ih9

/-- C1: for a Message freshly constructed from an OriginalMessage whose origin
platform is registered, a broadcast in which every `send_message` call
succeeds invokes `send_message` exactly once per registered non-origin
platform, in registration order; afterwards `M.ids` holds exactly the origin
entry (still the seeded origin id, unchanged) plus one entry per non-origin
registered platform carrying the id returned by that platform's
`send_message`.  The hypotheses `hkeys` and `hnames` are the registry
invariants established by `add_to_crosschat` (each platform is registered
once, under its own `name`). -/
theorem broadcast_fills_ids (cc : CrossChat) (om : OriginalMessage)
    (reply : Option OriginalMessage)
    (hkeys : (cc.platforms.map Prod.fst).Nodup)
    (hnames : ∀ kp ∈ cc.platforms, kp.2.name = kp.1)
    (horigin : om.platform ∈ cc.platforms.map Prod.fst)
    (hok : (Message.broadcast cc (Message.init om reply)).2.2 = Except.ok ()) :
    (Message.broadcast cc (Message.init om reply)).2.1.map SendCall.platform
      = removeFirst (cc.platforms.map Prod.fst) om.platform
    ∧ dictGet (Message.broadcast cc (Message.init om reply)).1.ids om.platform
      = some om.id
    ∧ (Message.broadcast cc (Message.init om reply)).1.ids.map Prod.fst
      = om.platform :: removeFirst (cc.platforms.map Prod.fst) om.platform
    ∧ ∀ n ∈ removeFirst (cc.platforms.map Prod.fst) om.platform,
        ∃ p rid, cc.get_platform n = some p
          ∧ p.send_message om.channel om.content om.user reply [] = Except.ok rid
          ∧ dictGet (Message.broadcast cc (Message.init om reply)).1.ids n = some rid := by
  have hb : Message.broadcast cc (Message.init om reply)
      = broadcastLoop cc (Message.init om reply)
          (removeFirst (cc.platforms.map Prod.fst) om.platform) := by
    simp [Message.broadcast, CrossChat.get_platforms_str, Message.init, horigin]
  have hids : (Message.init om reply).ids = [(om.platform, om.id)] := rfl
  have hfresh : ∀ n ∈ removeFirst (cc.platforms.map Prod.fst) om.platform,
      n ∉ (Message.init om reply).ids.map Prod.fst := by
    intro n hn
    rw [hids]
    simp only [List.map_cons, List.map_nil, List.mem_singleton]
    intro hne
    exact not_mem_removeFirst hkeys (hne ▸ hn)
  obtain ⟨h1, h2, h3, h4, _, _, _, _, _⟩ :=
    broadcastLoop_ok cc hnames (removeFirst (cc.platforms.map Prod.fst) om.platform)
      (Message.init om reply)
      (nodup_removeFirst _ hkeys)
      (fun n hn => mem_of_mem_removeFirst hn)
      hfresh
      (hb ▸ hok)
  refine ⟨?_, ?_, ?_, ?_⟩
  · rw [hb]; exact h1
  · rw [hb, h4 om.platform (not_mem_removeFirst hkeys), hids]
    simp [dictGet]
  · rw [hb, h2, hids]
    rfl
  · intro n hn
    obtain ⟨p, rid, hp, hs, hget⟩ := h3 n hn
    exact ⟨p, rid, hp, hs, by rw [hb]; exact hget⟩

/-- Witness for `broadcast_fills_ids`: broadcasting `demoOriginal`'s Message
through `demoRegistry` (origin `alpha`; targets `beta`, `gamma`). -/
theorem broadcast_fills_ids_witness :
    (Message.broadcast demoRegistry (Message.init demoOriginal none)).2.1.map SendCall.platform
      = removeFirst (demoRegistry.platforms.map Prod.fst) demoOriginal.platform
    ∧ dictGet (Message.broadcast demoRegistry (Message.init demoOriginal none)).1.ids
        demoOriginal.platform = some demoOriginal.id
    ∧ (Message.broadcast demoRegistry (Message.init demoOriginal none)).1.ids.map Prod.fst
      = demoOriginal.platform
        :: removeFirst (demoRegistry.platforms.map Prod.fst) demoOriginal.platform
    ∧ ∀ n ∈ removeFirst (demoRegistry.platforms.map Prod.fst) demoOriginal.platform,
        ∃ p rid, demoRegistry.get_platform n = some p
          ∧ p.send_message demoOriginal.channel demoOriginal.content demoOriginal.user
              none [] = Except.ok rid
          ∧ dictGet (Message.broadcast demoRegistry (Message.init demoOriginal none)).1.ids n
              = some rid :=
  broadcast_fills_ids demoRegistry demoOriginal none
    (by decide)
    (by
      intro kp hkp
      simp only [demoRegistry, List.mem_cons, List.not_mem_nil, or_false] at hkp
      rcases hkp with rfl | rfl | rfl <;> rfl)
    (by decide)
    rfl

/-- When the broadcast loop ends with an adapter exception, the failing
`send_message` call is the last call issued — every platform the loop would
have visited afterwards is never invoked — and every earlier call succeeded. -/
theorem broadcastLoop_error (cc : CrossChat)
    (hnames : ∀ kp ∈ cc.platforms, kp.2.name = kp.1) :
    ∀ (names : List Str) (m : Message) (e : Str),
      (broadcastLoop cc m names).2.2 = Except.error e →
      ∃ init last, (broadcastLoop cc m names).2.1 = init ++ [last]
        ∧ (∃ p, cc.get_platform last.platform = some p
            ∧ p.send_message m.channel m.content m.user m.reply [] = Except.error e)
        ∧ ∀ c ∈ init, ∃ p rid, cc.get_platform c.platform = some p
            ∧ p.send_message m.channel m.content m.user m.reply [] = Except.ok rid := by
  intro names
  induction names with
  | nil =>
    intro m e h
    simp [broadcastLoop] at h
  | cons n rest ih =>
    intro m e h
    cases hp : cc.get_platform n with
    | none =>
      have hred : broadcastLoop cc m (n :: rest) = broadcastLoop cc m rest := by
        simp [broadcastLoop, hp]
      rw [hred] at h ⊢
      exact ih m e h
    | some p =>
      have hpname : p.name = n := hnames (n, p) (dictGet_mem hp)
      cases hs : p.send_message m.channel m.content m.user m.reply [] with
      | error e' =>
        have he : e' = e := by simpa [broadcastLoop, hp, hs] using h
        subst he
        refine ⟨[], { platform := p.name, channel := m.channel, content := m.content,
                      user := m.user, reply := m.reply, attachments := [] },
          by simp [broadcastLoop, hp, hs], ⟨p, ?_, hs⟩, by simp⟩
        show cc.get_platform p.name = some p
        rw [hpname]
        exact hp
      | ok rid =>
        have h' : (broadcastLoop cc (m.set_id (PlatformRef.str p.name) rid) rest).2.2
            = Except.error e := by
          simpa [broadcastLoop, hp, hs] using h
        obtain ⟨init, last, hcalls, hlast, hinit⟩ :=
          ih (m.set_id (PlatformRef.str p.name) rid) e h'
        refine ⟨{ platform := p.name, channel := m.channel, content := m.content,
                  user := m.user, reply := m.reply, attachments := [] } :: init,
                last, ?_, hlast, ?_⟩
        · have : (broadcastLoop cc m (n :: rest)).2.1
              = { platform := p.name, channel := m.channel, content := m.content,
                  user := m.user, reply := m.reply, attachments := [] }
                :: (broadcastLoop cc (m.set_id (PlatformRef.str p.name) rid) rest).2.1 := by
            simp [broadcastLoop, hp, hs]
          rw [this, hcalls]
          rfl
        · intro c hc
          rcases List.mem_cons.mp hc with rfl | hc'
          · refine ⟨p, rid, ?_, hs⟩
            show cc.get_platform p.name = some p
            rw [hpname]
            exact hp
          · exact hinit c hc'

/-- When the edit loop ends with an adapter exception, the platforms split as
`ps1 ++ [p] ++ ps2` where `p` raised: the loop called exactly `ps1`'s
platforms (successfully) and then `p`, and never reached `ps2`. -/
theorem editLoop_error (m : Message) (newContent : Str) :
    ∀ (ps : List Platform) (e : Str),
      (editLoop m newContent ps).2 = Except.error e →
      ∃ ps1 p ps2, ps = ps1 ++ p :: ps2
        ∧ p.edit_message m.channel m newContent = Except.error e
        ∧ (editLoop m newContent ps).1.map EditCall.platform
          = (ps1 ++ [p]).map Platform.name
        ∧ ∀ q ∈ ps1, q.edit_message m.channel m newContent = Except.ok () := by
  intro ps
  induction ps with
  | nil =>
    intro e h
    simp [editLoop] at h
  | cons q rest ih =>
    intro e h
    cases he : q.edit_message m.channel m newContent with
    | error e' =>
      have hee : e' = e := by simpa [editLoop, he] using h
      subst hee
      exact ⟨[], q, rest, rfl, he, by simp [editLoop, he], by simp⟩
    | ok u =>
      cases u
      have h' : (editLoop m newContent rest).2 = Except.error e := by
        simpa [editLoop, he] using h
      obtain ⟨ps1, p, ps2, hsplit, hp, hcalls, hok1⟩ := ih e h'
      refine ⟨q :: ps1, p, ps2, by rw [hsplit]; rfl, hp, ?_, ?_⟩
      · have : (editLoop m newContent (q :: rest)).1
            = { platform := q.name, channel := m.channel, message := m,
                newContent := newContent } :: (editLoop m newContent rest).1 := by
          simp [editLoop, he]
        rw [this]
        simp only [List.map_cons, hcalls]
        rfl
      · intro r hr
        rcases List.mem_cons.mp hr with rfl | hr'
        · exact he
        · exact hok1 r hr'

/-- When the delete loop ends with an adapter exception, the platforms split
as `ps1 ++ [p] ++ ps2` where `p` raised: the loop called exactly `ps1`'s
platforms (successfully) and then `p`, and never reached `ps2`. -/
theorem deleteLoop_error (m : Message) :
    ∀ (ps : List Platform) (e : Str),
      (deleteLoop m ps).2 = Except.error e →
      ∃ ps1 p ps2, ps = ps1 ++ p :: ps2
        ∧ p.delete_message m.channel m = Except.error e
        ∧ (deleteLoop m ps).1.map DeleteCall.platform = (ps1 ++ [p]).map Platform.name
        ∧ ∀ q ∈ ps1, q.delete_message m.channel m = Except.ok () := by
  intro ps
  induction ps with
  | nil =>
    intro e h
    simp [deleteLoop] at h
  | cons q rest ih =>
    intro e h
    cases he : q.delete_message m.channel m with
    | error e' =>
      have hee : e' = e := by simpa [deleteLoop, he] using h
      subst hee
      exact ⟨[], q, rest, rfl, he, by simp [deleteLoop, he], by simp⟩
    | ok u =>
      cases u
      have h' : (deleteLoop m rest).2 = Except.error e := by
        simpa [deleteLoop, he] using h
      obtain ⟨ps1, p, ps2, hsplit, hp, hcalls, hok1⟩ := ih e h'
      refine ⟨q :: ps1, p, ps2, by rw [hsplit]; rfl, hp, ?_, ?_⟩
      · have : (deleteLoop m (q :: rest)).1
            = { platform := q.name, channel := m.channel, message := m }
              :: (deleteLoop m rest).1 := by
          simp [deleteLoop, he]
        rw [this]
        simp only [List.map_cons, hcalls]
        rfl
      · intro r hr
        rcases List.mem_cons.mp hr with rfl | hr'
        · exact he
        · exact hok1 r hr'

/-- C4 amended: an adapter exception during a broadcast, edit or delete sweep
aborts the sweep.  The failing call is the last one issued, every earlier call
succeeded, the platforms after the failing one are never invoked, and the
exception propagates to the caller (for `edit`, the local content update is
also skipped).  The hypothesis `hnames` is the registry invariant established
by `add_to_crosschat` (each platform registered under its own `name`). -/
theorem sweep_aborts_on_error (cc : CrossChat) (m : Message) (newContent : Str)
    (hnames : ∀ kp ∈ cc.platforms, kp.2.name = kp.1) :
    (∀ e, (Message.broadcast cc m).2.2 = Except.error e →
      ∃ init last, (Message.broadcast cc m).2.1 = init ++ [last]
        ∧ (∃ p, cc.get_platform last.platform = some p
            ∧ p.send_message m.channel m.content m.user m.reply [] = Except.error e)
        ∧ ∀ c ∈ init, ∃ p rid, cc.get_platform c.platform = some p
            ∧ p.send_message m.channel m.content m.user m.reply [] = Except.ok rid)
    ∧ (∀ e, (Message.edit cc m newContent).2.2 = Except.error e →
      ∃ ps1 p ps2, cc.platforms.map Prod.snd = ps1 ++ p :: ps2
        ∧ p.edit_message m.channel m newContent = Except.error e
        ∧ (Message.edit cc m newContent).2.1.map EditCall.platform
          = (ps1 ++ [p]).map Platform.name
        ∧ (∀ q ∈ ps1, q.edit_message m.channel m newContent = Except.ok ())
        ∧ (Message.edit cc m newContent).1.content = m.content)
    ∧ (∀ e, (Message.delete cc m).2.2.2 = Except.error e →
      ∃ ps1 p ps2, cc.platforms.map Prod.snd = ps1 ++ p :: ps2
        ∧ p.delete_message m.channel m = Except.error e
        ∧ (Message.delete cc m).2.2.1.map DeleteCall.platform
          = (ps1 ++ [p]).map Platform.name
        ∧ ∀ q ∈ ps1, q.delete_message m.channel m = Except.ok ()) := by
  refine ⟨?_, ?_, ?_⟩
  · intro e h
    have hb : Message.broadcast cc m
        = broadcastLoop cc m
            (if m.originalMessage.platform ∈ cc.platforms.map Prod.fst then
              removeFirst (cc.platforms.map Prod.fst) m.originalMessage.platform
            else cc.platforms.map Prod.fst) := rfl
    rw [hb] at h ⊢
    exact broadcastLoop_error cc hnames _ m e h
  · intro e h
    cases hr : (editLoop m newContent (cc.platforms.map Prod.snd)).2 with
    | ok u => simp [Message.edit, hr] at h
    | error e' =>
      have hee : e' = e := by simpa [Message.edit, hr] using h
      subst hee
      obtain ⟨ps1, p, ps2, hsplit, hp, hcalls, hok1⟩ :=
        editLoop_error m newContent (cc.platforms.map Prod.snd) e' hr
      refine ⟨ps1, p, ps2, hsplit, hp, ?_, hok1, ?_⟩
      · simpa [Message.edit, hr] using hcalls
      · simp [Message.edit, hr]
  · intro e h
    have hd : (Message.delete cc m).2.2 = deleteLoop m (cc.platforms.map Prod.snd) := rfl
    rw [hd] at h ⊢
    exact deleteLoop_error m (cc.platforms.map Prod.snd) e h

/-- Witness for `sweep_aborts_on_error`: broadcasting through `failRegistry`
(where `beta` raises `"boom"` and `gamma` follows it) aborts at `beta`. -/
theorem sweep_aborts_on_error_witness :
    ∃ init last, (Message.broadcast failRegistry demoMessage).2.1 = init ++ [last]
      ∧ (∃ p, failRegistry.get_platform last.platform = some p
          ∧ p.send_message demoMessage.channel demoMessage.content demoMessage.user
              demoMessage.reply [] = Except.error "boom".data)
      ∧ ∀ c ∈ init, ∃ p rid, failRegistry.get_platform c.platform = some p
          ∧ p.send_message demoMessage.channel demoMessage.content demoMessage.user
              demoMessage.reply [] = Except.ok rid :=
  (sweep_aborts_on_error failRegistry demoMessage "x".data
    (by
      intro kp hkp
      simp only [failRegistry, List.mem_cons, List.not_mem_nil, or_false] at hkp
      rcases hkp with rfl | rfl | rfl <;> rfl)).1 "boom".data rfl

/-! ### Claim C8: the readiness gate -/

/-- A terminating poll of one platform records zero or more `false` results
followed by exactly one final `true`: the loop only moves on once
`health_check` has returned `true`. -/
theorem pollPlatform_events (platform : Platform) :
    ∀ (fuel k : Nat) (events : List (Str × Bool)),
      pollPlatform platform fuel k = some events →
      ∃ pre, events = pre ++ [(platform.name, true)]
        ∧ ∀ ev ∈ pre, ev = (platform.name, false) := by
  intro fuel
  induction fuel with
  | zero =>
    intro k events h
    simp [pollPlatform] at h
  | succ fuel ih =>
    intro k events h
    cases hh : platform.health_check k with
    | true =>
      have hev : events = [(platform.name, true)] := by
        have := h
        simp only [pollPlatform, hh, if_true] at this
        exact (Option.some.inj this).symm
      subst hev
      exact ⟨[], rfl, by simp⟩
    | false =>
      cases hrec : pollPlatform platform fuel (k + 1) with
      | none => simp [pollPlatform, hh, hrec] at h
      | some evs =>
        have hev : events = (platform.name, false) :: evs := by
          have := h
          simp only [pollPlatform, hh, hrec, Bool.false_eq_true, if_false] at this
          exact (Option.some.inj this).symm
        subst hev
        obtain ⟨pre, hpre, hall⟩ := ih (k + 1) evs hrec
        refine ⟨(platform.name, false) :: pre, by rw [hpre]; rfl, ?_⟩
        intro ev hev
        rcases List.mem_cons.mp hev with rfl | hev'
        · rfl
        · exact hall ev hev'

/-- A terminating run of the outer wait loop splits the trace into one
contiguous block per platform, in list order: block `i` is platform `i`'s
polls and is completed (ending in that platform's `true`) before any event of
block `i+1` occurs. -/
theorem waitLoop_blocks (fuel : Nat) :
    ∀ (ps : List Platform) (trace : List (Str × Bool)),
      waitLoop fuel ps = some trace →
      ∃ blocks : List (List (Str × Bool)),
        trace = blocks.flatten
        ∧ List.Forall₂ (fun (platform : Platform) (block : List (Str × Bool)) =>
            ∃ pre, block = pre ++ [(platform.name, true)]
              ∧ ∀ ev ∈ pre, ev = (platform.name, false)) ps blocks := by
  intro ps
  induction ps with
  | nil =>
    intro trace h
    have htr : trace = [] := by
      have := h
      simp only [waitLoop] at this
      exact (Option.some.injEq _ _ ▸ this).symm
    subst htr
    exact ⟨[], rfl, List.Forall₂.nil⟩
  | cons platform rest ih =>
    intro trace h
    cases hpoll : pollPlatform platform fuel 0 with
    | none => simp [waitLoop, hpoll] at h
    | some events =>
      cases hrest : waitLoop fuel rest with
      | none => simp [waitLoop, hpoll, hrest] at h
      | some tr =>
        have htr : trace = events ++ tr := by
          have := h
          simp only [waitLoop, hpoll, hrest] at this
          exact (Option.some.inj this).symm
        subst htr
        obtain ⟨blocks, hbl, hforall⟩ := ih tr hrest
        exact ⟨events :: blocks,
          by rw [List.flatten_cons, hbl],
          List.Forall₂.cons (pollPlatform_events platform fuel 0 events hpoll) hforall⟩

/-- Helper: `Forall₂` sends every member of the left list to a related member of the
right list. -/
theorem forall₂_exists_right {α β : Type} {R : α → β → Prop} :
    ∀ {l1 : List α} {l2 : List β}, List.Forall₂ R l1 l2 →
      ∀ a ∈ l1, ∃ b ∈ l2, R a b := by
  intro l1 l2 h
  induction h with
  | nil => intro a ha; simp at ha
  | cons hr _ ih =>
    intro a ha
    rcases List.mem_cons.mp ha with rfl | ha'
    · exact ⟨_, List.mem_cons_self _ _, hr⟩
    · obtain ⟨b, hb, hrb⟩ := ih a ha'
      exact ⟨b, List.mem_cons_of_mem _ hb, hrb⟩

/-- C8: a run of `wait_for_platforms` that returns has seen every registered
platform's `health_check` return `true` at least once, and it polls the
platforms strictly sequentially in registration order: the trace is the
concatenation of one block per platform, each consisting of that platform's
`false` results followed by its first `true` — so platform `i+1`'s
`health_check` is never invoked before platform `i`'s has returned `true`. -/
theorem wait_for_platforms_gate (fuel : Nat) (cc : CrossChat)
    (trace : List (Str × Bool))
    (hrun : cc.wait_for_platforms fuel = some trace) :
    (∀ p ∈ cc.platforms.map Prod.snd, (p.name, true) ∈ trace)
    ∧ ∃ blocks : List (List (Str × Bool)),
        trace = blocks.flatten
        ∧ List.Forall₂ (fun (platform : Platform) (block : List (Str × Bool)) =>
            ∃ pre, block = pre ++ [(platform.name, true)]
              ∧ ∀ ev ∈ pre, ev = (platform.name, false))
          (cc.platforms.map Prod.snd) blocks := by
  obtain ⟨blocks, hbl, hforall⟩ :=
    waitLoop_blocks fuel (cc.platforms.map Prod.snd) trace hrun
  refine ⟨?_, blocks, hbl, hforall⟩
  intro p hp
  obtain ⟨block, hblock, pre, hpre, _⟩ := forall₂_exists_right hforall p hp
  rw [hbl]
  exact List.mem_flatten.mpr ⟨block, hblock,
    hpre ▸ List.mem_append.mpr (Or.inr (List.mem_singleton.mpr rfl))⟩

/-- Witness for `wait_for_platforms_gate`: with fuel 5, `gateRegistry`'s gate
terminates with the trace `alpha: false, false, true` then `beta: true`. -/
theorem wait_for_platforms_gate_witness :
    (∀ p ∈ gateRegistry.platforms.map Prod.snd,
      (p.name, true) ∈ ([("alpha".data, false), ("alpha".data, false),
        ("alpha".data, true), ("beta".data, true)] : List (Str × Bool)))
    ∧ ∃ blocks : List (List (Str × Bool)),
        ([("alpha".data, false), ("alpha".data, false),
          ("alpha".data, true), ("beta".data, true)] : List (Str × Bool))
          = blocks.flatten
        ∧ List.Forall₂ (fun (platform : Platform) (block : List (Str × Bool)) =>
            ∃ pre, block = pre ++ [(platform.name, true)]
              ∧ ∀ ev ∈ pre, ev = (platform.name, false))
          (gateRegistry.platforms.map Prod.snd) blocks :=
  wait_for_platforms_gate 5 gateRegistry _ rfl
